import Mathlib

/-!
# Verification of the trMandelbrot core

A shallow embedding of the core of the trMandelbrot terminal plotter:

* `src/mandelbrot/mandelbrot.py` — the escape-time engine (`Point.__int__`,
  `Point.is_stable`);
* `src/mandelbrot/mandelplot.py` — the viewport mapper (`frange`, `compose`,
  `action_move`, `action_zoom`).

Python `Decimal`/`complex` arithmetic is modelled by exact rational
arithmetic (`ℚ`); a complex number is a pair of rationals.  The magnitude
test `abs(c2) > 2` is embedded as `normSq c2 > 4`, which is equivalent for
real arithmetic since both sides are nonnegative.
-/

/-- Componentwise addition of complex numbers represented as pairs. -/
def cAdd (u v : ℚ × ℚ) : ℚ × ℚ := (u.1 + v.1, u.2 + v.2)

/-- Complex multiplication on pairs: `(a,b)·(c,d) = (ac − bd, ad + bc)`. -/
def cMul (u v : ℚ × ℚ) : ℚ × ℚ :=
  (u.1 * v.1 - u.2 * v.2, u.1 * v.2 + u.2 * v.1)

/-- Squared magnitude; `abs z > 2` in the source is `normSq z > 4` here. -/
def normSq (u : ℚ × ℚ) : ℚ := u.1 * u.1 + u.2 * u.2

/-- The loop body of `Point.__int__`: with `remaining` iterations left and
the loop counter at `n`, return `n` as soon as `normSq z > 4`, otherwise
step `z ← c + z·z`; return `0` if the iterations run out. -/
def escapeFrom (c : ℚ × ℚ) (z : ℚ × ℚ) (n : Nat) : Nat → Nat
  | 0 => 0
  | r + 1 => if 4 < normSq z then n else escapeFrom c (cAdd c (cMul z z)) (n + 1) r

/-- The `Point` named tuple of `mandelbrot.py`: `x`/`y` coordinates and the
iteration cap `max_iteration` (default 80). -/
structure Point where
  x : ℚ
  y : ℚ
  max_iteration : Nat := 80
deriving DecidableEq, Repr

/-- The method `Point.__int__`: run the escape loop from `c = complex(x, y)`, `z = 0`. -/
def Point.toInt (p : Point) : Nat :=
  escapeFrom (p.x, p.y) (0, 0) 0 p.max_iteration

/-- The property `Point.is_stable`: the point is stable iff `int(self) == 0`. -/
def Point.is_stable (p : Point) : Bool :=
  p.toInt == 0

/-- The escape count as a plain function of coordinates and iteration cap. -/
def pointInt (x y : ℚ) (maxIter : Nat) : Nat :=
  Point.toInt ⟨x, y, maxIter⟩

/-- The orbit of the Mandelbrot map: `orbit c 0 = 0`,
`orbit c (n+1) = c + (orbit c n)²` — the successive values of `c2` in
`Point.__int__`. -/
def orbit (c : ℚ × ℚ) : Nat → ℚ × ℚ
  | 0 => (0, 0)
  | n + 1 => cAdd c (cMul (orbit c n) (orbit c n))

/-- Result record of the spec's escape contract (§4.1). -/
structure EscapeResult where
  stable : Bool
  count : Nat
deriving DecidableEq, Repr

/-- Modelled from the spec (§4.1 algorithm), for comparison with the code:
for `n` in `[0, maxI)`, if `|z| > 2` return `{stable := false, count := n}`,
otherwise `z ← c + z²`; if the loop completes, `{stable := true, count := 0}`. -/
def escapeSpecGo (c : ℚ × ℚ) (z : ℚ × ℚ) (n maxI : Nat) : EscapeResult :=
  if _h : n < maxI then
    if 4 < normSq z then ⟨false, n⟩
    else escapeSpecGo c (cAdd c (cMul z z)) (n + 1) maxI
  else
    ⟨true, 0⟩
termination_by maxI - n

/-- Modelled from the spec: the full `escape(re, im, max_iterations)` contract. -/
def escapeSpec (re im : ℚ) (maxI : Nat) : EscapeResult :=
  escapeSpecGo (re, im) (0, 0) 0 maxI

/- ### The viewport mapper (`mandelplot.py`) -/

/-- The constant `MandelbrotPlot.SIZE`: the width/height of the plot. -/
def SIZE : Nat := 40

/-- The four reactive viewport bounds of `MandelbrotPlot`. -/
structure Bounds where
  from_x : ℚ
  to_x : ℚ
  from_y : ℚ
  to_y : ℚ
deriving DecidableEq, Repr

/-- The defaults `from_x = -2.0`, `to_x = 2.0`, `from_y = -2.5`, `to_y = 1.5`. -/
def defaultBounds : Bounds := ⟨-2, 2, -5/2, 3/2⟩

/-- The loop of `MandelbrotPlot.frange`: yield `n` while `n < r_to` and
fewer than `SIZE` steps have been taken, stepping `n` by `step`. The
remaining step budget `SIZE - steps` is the recursion fuel. -/
def frangeGo (r_to step : ℚ) : ℚ → Nat → List ℚ
  | _, 0 => []
  | n, fuel + 1 => if n < r_to then n :: frangeGo r_to step (n + step) fuel else []

/-- The generator `MandelbrotPlot.frange`: values from `r_from` towards `r_to` in steps of
`(r_to − r_from) / SIZE`, at most `SIZE` of them. -/
def frange (r_from r_to : ℚ) : List ℚ :=
  frangeGo r_to ((r_to - r_from) / (SIZE : ℚ)) r_from SIZE

/-- One grid cell: its `(col, row)` position and the `x`/`y` fields of the
`Point` it holds.  `compose` constructs `Point(y, x)`, so `px` is the value
drawn from the `y` range and `py` the value drawn from the `x` range. -/
structure Cell where
  col : Nat
  row : Nat
  px : ℚ
  py : ℚ
deriving DecidableEq, Repr

/-- The grid yielded by `MandelbrotPlot.compose` (headers aside):
`for col, x in enumerate(frange(from_x, to_x)): for row, y in
enumerate(frange(from_y, to_y)): yield MandelPoint(at(col,row), y, x)` —
note the swapped argument order `(y, x)` building `Point(x := y, y := x)`. -/
def compose (b : Bounds) : List Cell :=
  (frange b.from_x b.to_x).enum.flatMap fun cx =>
    (frange b.from_y b.to_y).enum.map fun ry =>
      ⟨cx.1, ry.1, ry.2, cx.2⟩

/-- The real part of the complex number a cell's point feeds to the escape
engine: `Point.__int__` runs `complex(self.x, self.y)`, so `re = px`. -/
def Cell.re (c : Cell) : ℚ := c.px

/-- The imaginary part of a cell's point: `im = py`. -/
def Cell.im (c : Cell) : ℚ := c.py

/-- The bounds translation performed by `MandelbrotPlot.action_move`:
`from_x += x; to_x += x; from_y += y; to_y += y`. -/
def action_move (b : Bounds) (x y : ℚ) : Bounds :=
  ⟨b.from_x + x, b.to_x + x, b.from_y + y, b.to_y + y⟩

/-- The cell update of `action_move`: `cell.point += (y, x)`.  `Point` is a
`NamedTuple`, hence a tuple, so `+` is tuple concatenation; tuples are
modelled as lists of numbers (`max_iteration` included as its numeric
value). -/
def pointPlusDelta (point delta : List ℚ) : List ℚ :=
  point ++ delta

/-- A `Point(x, y, max_iteration)` viewed as the Python tuple it is. -/
def Point.toTuple (p : Point) : List ℚ :=
  [p.x, p.y, (p.max_iteration : ℚ)]

/-- The action `MandelbrotPlot.action_zoom` on the bounds: pick `truediv` when
`zoom < 0` else `mul`, drop the sign, and apply to each bound. -/
def action_zoom (b : Bounds) (zoom : ℚ) : Bounds :=
  let op : ℚ → ℚ → ℚ := fun v w => if zoom < 0 then v / w else v * w
  let z := |zoom|
  ⟨op b.from_x z, op b.to_x z, op b.from_y z, op b.to_y z⟩

/-- The x step of the grid mapping: `(to_x − from_x) / grid_size`. -/
def step_x (b : Bounds) : ℚ := (b.to_x - b.from_x) / (SIZE : ℚ)

/-- The y step of the grid mapping: `(to_y − from_y) / grid_size`. -/
def step_y (b : Bounds) : ℚ := (b.to_y - b.from_y) / (SIZE : ℚ)


/- ### Correspondence between the spec algorithm and `Point.__int__` -/

theorem escapeSpecGo_succ (c z : ℚ × ℚ) (n maxI : Nat) (h : n < maxI) :
    escapeSpecGo c z n maxI =
      if 4 < normSq z then ⟨false, n⟩
      else escapeSpecGo c (cAdd c (cMul z z)) (n + 1) maxI := by
  rw [escapeSpecGo]
  simp [h]

theorem escapeSpecGo_stop (c z : ℚ × ℚ) (n maxI : Nat) (h : ¬ n < maxI) :
    escapeSpecGo c z n maxI = ⟨true, 0⟩ := by
  rw [escapeSpecGo]
  simp [h]

/-- For a call whose `z` has not already escaped (or whose counter is
positive), the spec algorithm and the code loop agree: the counts coincide
and the spec reports stable exactly when the code returns 0. -/
theorem escapeSpecGo_eq_escapeFrom (c : ℚ × ℚ) :
    ∀ (r : Nat) (z : ℚ × ℚ) (n : Nat), (normSq z ≤ 4 ∨ 0 < n) →
      (escapeSpecGo c z n (n + r)).count = escapeFrom c z n r ∧
      ((escapeSpecGo c z n (n + r)).stable = true ↔ escapeFrom c z n r = 0) := by
  intro r
  induction r with
  | zero =>
    intro z n _
    rw [escapeSpecGo_stop c z n (n + 0) (by omega)]
    simp [escapeFrom]
  | succ r ih =>
    intro z n hz
    rw [escapeSpecGo_succ c z n (n + (r + 1)) (by omega)]
    by_cases h4 : 4 < normSq z
    · have hn : 0 < n := by
        rcases hz with hle | hpos
        · exact absurd h4 (not_lt.mpr hle)
        · exact hpos
      simp [escapeFrom, h4, Nat.pos_iff_ne_zero.mp hn]
    · have := ih (cAdd c (cMul z z)) (n + 1) (Or.inr (Nat.succ_pos n))
      simpa [escapeFrom, h4, Nat.add_assoc, Nat.add_comm 1 r] using this

/-- The loop returns 0, or a count in `[max 1 n, n + r − 1]`: a nonzero
return value is the loop counter at an escape check, which is at least 1
when the initial `z` has not already escaped. -/
theorem escapeFrom_zero_or_bounds (c : ℚ × ℚ) :
    ∀ (r : Nat) (z : ℚ × ℚ) (n : Nat), (normSq z ≤ 4 ∨ 0 < n) →
      escapeFrom c z n r = 0 ∨
        (1 ≤ escapeFrom c z n r ∧ n ≤ escapeFrom c z n r ∧
          escapeFrom c z n r ≤ n + r - 1) := by
  intro r
  induction r with
  | zero => intro z n _; exact Or.inl rfl
  | succ r ih =>
    intro z n hz
    by_cases h4 : 4 < normSq z
    · have hn : 0 < n := by
        rcases hz with hle | hpos
        · exact absurd h4 (not_lt.mpr hle)
        · exact hpos
      right
      simp only [escapeFrom, h4, if_pos]
      omega
    · have := ih (cAdd c (cMul z z)) (n + 1) (Or.inr (Nat.succ_pos n))
      simp only [escapeFrom, h4, if_neg, if_false]
      rcases this with h0 | ⟨h1, hlo, hhi⟩
      · exact Or.inl h0
      · right
        exact ⟨h1, by omega, by omega⟩

/-- If no orbit value checked during the remaining iterations has escaped,
the loop completes and returns 0. -/
theorem escapeFrom_stable_run (c : ℚ × ℚ) :
    ∀ (r j : Nat), (∀ i, j ≤ i → i < j + r → normSq (orbit c i) ≤ 4) →
      escapeFrom c (orbit c j) j r = 0 := by
  intro r
  induction r with
  | zero => intro j _; rfl
  | succ r ih =>
    intro j hbound
    have hj : normSq (orbit c j) ≤ 4 := hbound j le_rfl (by omega)
    have : escapeFrom c (orbit c j) j (r + 1) =
        escapeFrom c (orbit c (j + 1)) (j + 1) r := by
      simp [escapeFrom, not_lt.mpr hj, orbit]
    rw [this]
    exact ih (j + 1) (fun i hi hi' => hbound i (by omega) (by omega))

/-- If `k` is the first escape index and the loop, currently at counter `j ≤ k`,
still has enough iterations to reach `k`, it returns exactly `k`. -/
theorem escapeFrom_escape_run (c : ℚ × ℚ) (k : Nat)
    (hmin : ∀ i, i < k → normSq (orbit c i) ≤ 4) (hk : 4 < normSq (orbit c k)) :
    ∀ (r j : Nat), j ≤ k → k < j + r → escapeFrom c (orbit c j) j r = k := by
  intro r
  induction r with
  | zero => intro j _ h; omega
  | succ r ih =>
    intro j hjk hkr
    by_cases hj : j = k
    · subst hj
      simp [escapeFrom, hk]
    · have hlt : j < k := lt_of_le_of_ne hjk hj
      have hle : normSq (orbit c j) ≤ 4 := hmin j hlt
      have : escapeFrom c (orbit c j) j (r + 1) =
          escapeFrom c (orbit c (j + 1)) (j + 1) r := by
        simp [escapeFrom, not_lt.mpr hle, orbit]
      rw [this]
      exact ih (j + 1) (by omega) (by omega)

theorem frangeGo_succ (t s n : ℚ) (f : Nat) :
    frangeGo t s n (f + 1) =
      if n < t then n :: frangeGo t s (n + s) f else [] := rfl

theorem frangeGo_length_le (t s : ℚ) :
    ∀ (fuel : Nat) (n : ℚ), (frangeGo t s n fuel).length ≤ fuel := by
  intro fuel
  induction fuel with
  | zero => intro n; exact Nat.le_refl 0
  | succ f ih =>
    intro n
    rw [frangeGo_succ]
    by_cases h : n < t
    · simpa [h] using ih (n + s)
    · simp [h]

theorem frange_inverted (a b : ℚ) (h : b ≤ a) : frange a b = [] := by
  rw [frange, show SIZE = 39 + 1 from rfl, frangeGo_succ, if_neg (not_lt.mpr h)]

theorem frangeGo_eq_map (t s : ℚ) :
    ∀ (fuel : Nat) (n : ℚ), (∀ i : Nat, i < fuel → n + i * s < t) →
      frangeGo t s n fuel = (List.range fuel).map (fun i : Nat => n + (i : ℚ) * s) := by
  intro fuel
  induction fuel with
  | zero => intro n _; rfl
  | succ f ih =>
    intro n h
    have h0 : n < t := by simpa using h 0 (Nat.succ_pos f)
    rw [frangeGo_succ, if_pos h0, List.range_succ_eq_map]
    rw [List.map_cons, List.map_map]
    congr 1
    · simp
    rw [ih (n + s) (fun i hi => by
      have := h (i + 1) (by omega)
      push_cast at this ⊢
      linarith)]
    congr 1
    funext i
    simp only [Function.comp_apply]
    push_cast
    ring

theorem frange_default_x :
    frange (-2 : ℚ) 2 = (List.range 40).map (fun i : Nat => -2 + (i : ℚ) * (1/10)) := by
  have hstep : ((2 : ℚ) - -2) / ((SIZE : Nat) : ℚ) = 1/10 := by norm_num [SIZE]
  rw [frange, hstep, show SIZE = 40 from rfl]
  apply frangeGo_eq_map
  intro i hi
  have : (i : ℚ) ≤ 39 := by exact_mod_cast Nat.lt_succ_iff.mp hi
  linarith

theorem frange_default_y :
    frange (-5/2 : ℚ) (3/2) = (List.range 40).map (fun i : Nat => -5/2 + (i : ℚ) * (1/10)) := by
  have hstep : ((3/2 : ℚ) - (-5/2)) / ((SIZE : Nat) : ℚ) = 1/10 := by norm_num [SIZE]
  rw [frange, hstep, show SIZE = 40 from rfl]
  apply frangeGo_eq_map
  intro i hi
  have : (i : ℚ) ≤ 39 := by exact_mod_cast Nat.lt_succ_iff.mp hi
  linarith

theorem mem_compose_iff (b : Bounds) (c : Cell) :
    c ∈ compose b ↔
      (frange b.from_x b.to_x)[c.col]? = some c.py ∧
      (frange b.from_y b.to_y)[c.row]? = some c.px := by
  simp only [compose, List.mem_flatMap, List.mem_map]
  constructor
  · rintro ⟨cx, hcx, ry, hry, rfl⟩
    exact ⟨List.mem_enum_iff_getElem?.mp hcx, List.mem_enum_iff_getElem?.mp hry⟩
  · rintro ⟨h1, h2⟩
    exact ⟨(c.col, c.py), List.mem_enum_iff_getElem?.mpr h1,
      (c.row, c.px), List.mem_enum_iff_getElem?.mpr h2, by cases c; rfl⟩

theorem compose_length (b : Bounds) :
    (compose b).length =
      (frange b.from_x b.to_x).length * (frange b.from_y b.to_y).length := by
  simp only [compose, List.length_flatMap, List.map_map, Function.comp_def,
    List.length_map, List.enum_length, List.map_const', List.sum_replicate,
    smul_eq_mul, mul_comm]

/- ### Concrete evaluations used by witnesses -/

theorem normSq_zero : normSq (0, 0) = 0 := by norm_num [normSq]

theorem pointInt_one_one_three : pointInt 1 1 3 = 2 := by
  norm_num [pointInt, Point.toInt, escapeFrom, normSq, cAdd, cMul]

theorem orbit_one_one_two : orbit (1, 1) 2 = (1, 3) := by
  norm_num [orbit, cAdd, cMul]

/- ### The claims -/

/-- Claim C1: for every finite `re`, `im` and every `max_iterations > 0`,
the code's escape computation follows exactly the spec's algorithm
(`c = re + im·i`, `z = 0`; for `n ∈ [0, max)`: if `|z| > 2` return unstable
with count `n`, else `z ← c + z²`; on completion return stable with count
0), and the point is reported stable exactly when the returned count is 0. -/
theorem C1_escape_algorithm (x y : ℚ) (m : Nat) (_hm : 0 < m) :
    (escapeSpec x y m).count = pointInt x y m ∧
    ((escapeSpec x y m).stable = true ↔ pointInt x y m = 0) ∧
    (Point.is_stable ⟨x, y, m⟩ = true ↔ pointInt x y m = 0) := by
  have h := escapeSpecGo_eq_escapeFrom (x, y) m (0, 0) 0
    (Or.inl (by rw [normSq_zero]; norm_num))
  rw [Nat.zero_add] at h
  exact ⟨h.1, h.2, by simp [Point.is_stable, pointInt]⟩

theorem C1_escape_algorithm_witness :
    0 < 3 ∧ (escapeSpec 1 1 3).count = pointInt 1 1 3 :=
  ⟨Nat.succ_pos 2, (C1_escape_algorithm 1 1 3 (Nat.succ_pos 2)).1⟩

/-- Claim C7: the escape count is 0 exactly when the point is stable, and a
nonzero count `n` satisfies `1 ≤ n ≤ max_iterations − 1`: the loop can
never return 0 as a genuine escape index since `|z|` starts at 0, so 0 is a
collision-free sentinel for stability. -/
theorem C7_zero_sentinel (x y : ℚ) (m : Nat) (_hm : 0 < m) :
    ((Point.is_stable ⟨x, y, m⟩ = true) ↔ pointInt x y m = 0) ∧
    (pointInt x y m ≠ 0 →
      1 ≤ pointInt x y m ∧ pointInt x y m ≤ m - 1) := by
  refine ⟨by simp [Point.is_stable, pointInt], fun hne => ?_⟩
  have h := escapeFrom_zero_or_bounds (x, y) m (0, 0) 0
    (Or.inl (by rw [normSq_zero]; norm_num))
  have hdef : pointInt x y m = escapeFrom (x, y) (0, 0) 0 m := rfl
  rcases h with h0 | ⟨h1, _, hhi⟩
  · exact absurd (hdef.trans h0) hne
  · exact ⟨by omega, by omega⟩

theorem C7_zero_sentinel_witness :
    0 < 3 ∧ 1 ≤ pointInt 1 1 3 ∧ pointInt 1 1 3 ≤ 3 - 1 :=
  ⟨Nat.succ_pos 2,
    (C7_zero_sentinel 1 1 3 (Nat.succ_pos 2)).2
      (by rw [pointInt_one_one_three]; omega)⟩

/-- Claim C8: for a point that escapes, with `k` the least index at which
`|z_k| > 2`, the escape count as a function of the iteration bound `N` is 0
for `N ≤ k`, equals `k` for every `N > k`, and is therefore monotonically
non-decreasing in `N`. -/
theorem C8_count_monotone (x y : ℚ) (k : Nat)
    (hk : 4 < normSq (orbit (x, y) k))
    (hmin : ∀ j, j < k → normSq (orbit (x, y) j) ≤ 4) :
    (∀ N, N ≤ k → pointInt x y N = 0) ∧
    (∀ N, k < N → pointInt x y N = k) ∧
    (∀ N M, N ≤ M → pointInt x y N ≤ pointInt x y M) := by
  have hA : ∀ N, N ≤ k → pointInt x y N = 0 := by
    intro N hN
    exact escapeFrom_stable_run (x, y) N 0
      (fun i _ hi => hmin i (by omega))
  have hB : ∀ N, k < N → pointInt x y N = k := by
    intro N hN
    exact escapeFrom_escape_run (x, y) k hmin hk N 0 (Nat.zero_le k) (by omega)
  refine ⟨hA, hB, fun N M hNM => ?_⟩
  rcases le_or_lt N k with h | h
  · rw [hA N h]; exact Nat.zero_le _
  · rw [hB N h, hB M (lt_of_lt_of_le h hNM)]

theorem C8_count_monotone_witness :
    4 < normSq (orbit (1, 1) 2) ∧ pointInt 1 1 2 = 0 ∧ pointInt 1 1 3 = 2 := by
  have hk : 4 < normSq (orbit ((1 : ℚ), (1 : ℚ)) 2) := by
    rw [orbit_one_one_two]; norm_num [normSq]
  have hmin : ∀ j, j < 2 → normSq (orbit ((1 : ℚ), (1 : ℚ)) j) ≤ 4 := by
    intro j hj
    interval_cases j <;> norm_num [orbit, cAdd, cMul, normSq]
  exact ⟨hk, (C8_count_monotone 1 1 2 hk hmin).1 2 le_rfl,
    (C8_count_monotone 1 1 2 hk hmin).2.1 3 (by omega)⟩

/-- Claim C5 counterexample: `c = 3 + 0i` has `|c| > 2`, and
`max_iterations = 1` is positive, yet the computation returns count 0 and
reports the point stable — the single loop iteration checks only `z₀ = 0`
and never sees `z₁ = c`. -/
theorem C5_counterexample :
    4 < normSq (3, 0) ∧ 0 < 1 ∧ pointInt 3 0 1 = 0 ∧
      Point.is_stable ⟨3, 0, 1⟩ = true := by
  refine ⟨by norm_num [normSq], Nat.one_pos, ?_, ?_⟩ <;>
    norm_num [pointInt, Point.toInt, Point.is_stable, escapeFrom, normSq,
      cAdd, cMul]

/-- Claim C5 (amended): for every `(re, im)` with `re² + im² > 4` and every
`max_iterations ≥ 2`, the escape computation reports the point unstable
with count 1, which is the exact iteration index at which `|z|` first
exceeds 2 (`z₀ = 0` does not exceed it, `z₁ = c` does); with
`max_iterations = 1` the loop ends before checking `z₁` and the point is
reported stable. -/
theorem C5_outside_disk_escapes (x y : ℚ) (m : Nat)
    (hc : 4 < x * x + y * y) (hm : 2 ≤ m) :
    pointInt x y m = 1 ∧ Point.is_stable ⟨x, y, m⟩ = false ∧
      normSq (orbit (x, y) 0) ≤ 4 ∧ 4 < normSq (orbit (x, y) 1) := by
  obtain ⟨r, rfl⟩ : ∃ r, m = r + 2 := ⟨m - 2, by omega⟩
  have h0 : ¬ (4 < normSq ((0 : ℚ), (0 : ℚ))) := by norm_num [normSq]
  have hz1 : cAdd (x, y) (cMul (0, 0) (0, 0)) = (x, y) := by
    norm_num [cAdd, cMul]
  have hc' : 4 < normSq (x, y) := by simpa [normSq] using hc
  have hrun : pointInt x y (r + 2) = 1 := by
    show escapeFrom (x, y) (0, 0) 0 (r + 2) = 1
    rw [escapeFrom, if_neg h0, hz1, escapeFrom, if_pos hc']
  refine ⟨hrun, ?_, by norm_num [orbit, normSq], ?_⟩
  · simp [Point.is_stable, show Point.toInt ⟨x, y, r + 2⟩ = 1 from hrun]
  · have h1 : orbit (x, y) 1 = (x, y) := by
      show cAdd (x, y) (cMul (orbit (x, y) 0) (orbit (x, y) 0)) = (x, y)
      rw [show orbit (x, y) 0 = ((0 : ℚ), (0 : ℚ)) from rfl, hz1]
    rw [h1]; exact hc'

theorem C5_outside_disk_escapes_witness :
    4 < (3 : ℚ) * 3 + 0 * 0 ∧ 2 ≤ 2 ∧ pointInt 3 0 2 = 1 :=
  ⟨by norm_num, le_rfl,
    (C5_outside_disk_escapes 3 0 2 (by norm_num) le_rfl).1⟩

/-- The default-bounds grid contains exactly the cells
`⟨col, row, -5/2 + row/10, -2 + col/10⟩` for `col, row < 40`. -/
theorem mem_compose_default_iff (c : Cell) :
    c ∈ compose defaultBounds ↔
      (c.col < 40 ∧ -2 + (c.col : ℚ) * (1/10) = c.py) ∧
      (c.row < 40 ∧ -5/2 + (c.row : ℚ) * (1/10) = c.px) := by
  rw [mem_compose_iff, show defaultBounds.from_x = (-2 : ℚ) from rfl,
    show defaultBounds.to_x = (2 : ℚ) from rfl,
    show defaultBounds.from_y = (-5/2 : ℚ) from rfl,
    show defaultBounds.to_y = (3/2 : ℚ) from rfl,
    frange_default_x, frange_default_y]
  simp only [List.getElem?_map, Option.map_eq_some', List.getElem?_eq_some,
    List.getElem_range, List.length_range]
  constructor
  · rintro ⟨⟨a, ⟨h1, rfl⟩, h2⟩, ⟨b, ⟨h3, rfl⟩, h4⟩⟩
    exact ⟨⟨h1, h2⟩, ⟨h3, h4⟩⟩
  · rintro ⟨⟨h1, h2⟩, ⟨h3, h4⟩⟩
    exact ⟨⟨c.col, ⟨h1, rfl⟩, h2⟩, ⟨c.row, ⟨h3, rfl⟩, h4⟩⟩

/-- Claim C2 counterexample: with the default bounds, the grid's cell at
`col = 0, row = 0` is `⟨0, 0, px := -5/2, py := -2⟩`, whose point has
`re = px = -2.5` and `im = py = -2.0`; the cell the claim describes, with
`re = -2.0` and `im = -2.5`, is not in the grid — `compose` hands
`MandelPoint` its coordinates as `(y, x)`, so the real part follows the
y range and the imaginary part the x range, swapped relative to the
claim. -/
theorem C2_counterexample :
    (⟨0, 0, -5/2, -2⟩ : Cell) ∈ compose defaultBounds ∧
    ¬ ((⟨0, 0, -2, -5/2⟩ : Cell) ∈ compose defaultBounds) ∧
    Cell.re ⟨0, 0, -5/2, -2⟩ = -5/2 ∧ ((-5/2 : ℚ) ≠ -2) := by
  refine ⟨(mem_compose_default_iff _).mpr
      ⟨⟨by norm_num, by norm_num⟩, ⟨by norm_num, by norm_num⟩⟩, fun h => ?_,
    rfl, by norm_num⟩
  obtain ⟨⟨_, h2⟩, _⟩ := (mem_compose_default_iff _).mp h
  norm_num at h2

/-- Claim C2 (amended): with the default bounds and grid size 40 the grid
yields exactly 1600 points, with `step_x = step_y = 1/10`; the cell at
`(col, row)` holds the point with `re = from_y + row·step_y` and
`im = from_x + col·step_x` — the coordinate roles are swapped relative to
the claim, so the cell at `(0,0)` has `re = -2.5`, `im = -2.0` and the cell
at `(39,39)` has `re = 1.4`, `im = 1.9`. -/
theorem C2_grid_mapping :
    (compose defaultBounds).length = 1600 ∧
    step_x defaultBounds = 1/10 ∧ step_y defaultBounds = 1/10 ∧
    (∀ col row : Nat, col < 40 → row < 40 →
      (⟨col, row, -5/2 + (row : ℚ) * (1/10), -2 + (col : ℚ) * (1/10)⟩ : Cell) ∈
        compose defaultBounds) ∧
    (∀ c ∈ compose defaultBounds,
      c.col < 40 ∧ c.row < 40 ∧
      Cell.re c = defaultBounds.from_y + (c.row : ℚ) * step_y defaultBounds ∧
      Cell.im c = defaultBounds.from_x + (c.col : ℚ) * step_x defaultBounds) := by
  refine ⟨?_, by norm_num [step_x, defaultBounds, SIZE],
    by norm_num [step_y, defaultBounds, SIZE], ?_, ?_⟩
  · rw [compose_length, show defaultBounds.from_x = (-2 : ℚ) from rfl,
      show defaultBounds.to_x = (2 : ℚ) from rfl,
      show defaultBounds.from_y = (-5/2 : ℚ) from rfl,
      show defaultBounds.to_y = (3/2 : ℚ) from rfl,
      frange_default_x, frange_default_y]
    simp
  · intro col row hcol hrow
    exact (mem_compose_default_iff _).mpr ⟨⟨hcol, rfl⟩, ⟨hrow, rfl⟩⟩
  · intro c hc
    obtain ⟨⟨h1, h2⟩, h3, h4⟩ := (mem_compose_default_iff c).mp hc
    refine ⟨h1, h3, ?_, ?_⟩
    · rw [Cell.re, ← h4]
      norm_num [step_y, defaultBounds, SIZE]
    · rw [Cell.im, ← h2]
      norm_num [step_x, defaultBounds, SIZE]

theorem C2_grid_mapping_witness :
    (⟨39, 39, -5/2 + (39 : ℚ) * (1/10), -2 + (39 : ℚ) * (1/10)⟩ : Cell) ∈
      compose defaultBounds :=
  C2_grid_mapping.2.2.2.1 39 39 (by omega) (by omega)

/-- Claim C3: `action_move` translates the four bounds correctly, but the
per-cell update `cell.point += (y, x)` concatenates the delta onto the
`Point` named tuple instead of translating its coordinates: panning the
default viewport by `(0.1, 0)` turns the cell point `Point(0, 0, 80)` into
the 5-tuple `(0, 0, 80, 0, 0.1)` rather than the translated point
`Point(0, 0.1, 80)` — the slip the source's own comment remarks on. -/
theorem C3_pan_bug :
    action_move defaultBounds (1/10) 0 = ⟨-19/10, 21/10, -5/2, 3/2⟩ ∧
    (action_move defaultBounds (1/10) 0).to_x -
        (action_move defaultBounds (1/10) 0).from_x =
      defaultBounds.to_x - defaultBounds.from_x ∧
    pointPlusDelta (Point.toTuple ⟨0, 0, 80⟩) [0, 1/10] =
      [0, 0, 80, 0, 1/10] ∧
    pointPlusDelta (Point.toTuple ⟨0, 0, 80⟩) [0, 1/10] ≠
      Point.toTuple ⟨0, 1/10, 80⟩ := by
  refine ⟨?_, by norm_num [action_move, defaultBounds], ?_, ?_⟩
  · norm_num [action_move, defaultBounds]
  · norm_num [pointPlusDelta, Point.toTuple]
  · norm_num [pointPlusDelta, Point.toTuple]

/-- Claim C4 counterexample: zooming the default viewport by factor 0
silently produces the collapsed bounds `(0, 0, 0, 0)` — a state with
`from_x ≥ to_x` — instead of failing before the corrupted state exists:
`action_zoom` is a total operation with no degeneracy check. -/
theorem C4_counterexample :
    action_zoom defaultBounds 0 = ⟨0, 0, 0, 0⟩ ∧
    ¬ ((action_zoom defaultBounds 0).from_x <
        (action_zoom defaultBounds 0).to_x) := by
  constructor
  · simp [action_zoom, defaultBounds]
  · simp [action_zoom]

/-- Claim C4 (amended): the code performs no degenerate-viewport check and
raises no error: `action_zoom` with factor 0 maps every viewport to the
collapsed bounds `(0, 0, 0, 0)` (with `from_x = to_x` and `from_y = to_y`),
and the grid then built from those bounds is empty. -/
theorem C4_no_degenerate_check (b : Bounds) :
    action_zoom b 0 = ⟨0, 0, 0, 0⟩ ∧
    (action_zoom b 0).from_x = (action_zoom b 0).to_x ∧
    compose (action_zoom b 0) = [] := by
  have h : action_zoom b 0 = ⟨0, 0, 0, 0⟩ := by
    simp [action_zoom]
  refine ⟨h, by rw [h], ?_⟩
  rw [h]
  simp [compose, frange_inverted 0 0 le_rfl]

/-- In the negative-factor branch `action_zoom` divides every bound by the
factor's absolute value. -/
theorem action_zoom_of_neg (b : Bounds) (z : ℚ) (h : z < 0) :
    action_zoom b z =
      ⟨b.from_x / |z|, b.to_x / |z|, b.from_y / |z|, b.to_y / |z|⟩ := by
  simp [action_zoom, h]

/-- In the nonnegative-factor branch `action_zoom` multiplies every bound
by the factor. -/
theorem action_zoom_of_nonneg (b : Bounds) (z : ℚ) (h : 0 ≤ z) :
    action_zoom b z =
      ⟨b.from_x * z, b.to_x * z, b.from_y * z, b.to_y * z⟩ := by
  simp [action_zoom, not_lt.mpr h, abs_of_nonneg h]

/-- Claim C6: `action_zoom b z` divides each of the four bounds by `|z|`
when `z < 0` and multiplies each of the four bounds by `z` when `z ≥ 0`;
each bound is scaled on its own, about zero. -/
theorem C6_zoom_semantics (b : Bounds) (z : ℚ) :
    (z < 0 → action_zoom b z =
      ⟨b.from_x / |z|, b.to_x / |z|, b.from_y / |z|, b.to_y / |z|⟩) ∧
    (0 ≤ z → action_zoom b z =
      ⟨b.from_x * z, b.to_x * z, b.from_y * z, b.to_y * z⟩) := by
  exact ⟨action_zoom_of_neg b z, action_zoom_of_nonneg b z⟩

theorem C6_zoom_semantics_witness :
    action_zoom defaultBounds (-2) = ⟨-1, 1, -5/4, 3/4⟩ ∧
    action_zoom defaultBounds 2 = ⟨-4, 4, -5, 3⟩ := by
  constructor
  · rw [(C6_zoom_semantics defaultBounds (-2)).1 (by norm_num)]
    norm_num [defaultBounds]
  · rw [(C6_zoom_semantics defaultBounds 2).2 (by norm_num)]
    norm_num [defaultBounds]

/-- Claim C9: a zoom with nonzero factor preserves the strict orderings
`from_x < to_x` and `from_y < to_y` (both branches scale all four bounds by
a positive number), and factor 0 is the only factor that degenerates a
proper viewport, collapsing all four bounds to 0. -/
theorem C9_zoom_preserves_order (b : Bounds) (z : ℚ)
    (hx : b.from_x < b.to_x) (hy : b.from_y < b.to_y) :
    (z ≠ 0 →
      (action_zoom b z).from_x < (action_zoom b z).to_x ∧
      (action_zoom b z).from_y < (action_zoom b z).to_y) ∧
    (z = 0 → action_zoom b z = ⟨0, 0, 0, 0⟩) := by
  constructor
  · intro hz
    rcases lt_or_gt_of_ne hz with hneg | hpos
    · rw [action_zoom_of_neg b z hneg]
      have habs : 0 < |z| := abs_pos.mpr hz
      exact ⟨(div_lt_div_iff_of_pos_right habs).mpr hx,
        (div_lt_div_iff_of_pos_right habs).mpr hy⟩
    · rw [action_zoom_of_nonneg b z hpos.le]
      exact ⟨(mul_lt_mul_right hpos).mpr hx, (mul_lt_mul_right hpos).mpr hy⟩
  · rintro rfl
    simp [action_zoom]

theorem C9_zoom_preserves_order_witness :
    defaultBounds.from_x < defaultBounds.to_x ∧
    ((-2 : ℚ) ≠ 0) ∧
    (action_zoom defaultBounds (-2)).from_x <
      (action_zoom defaultBounds (-2)).to_x := by
  refine ⟨by norm_num [defaultBounds], by norm_num, ?_⟩
  exact ((C9_zoom_preserves_order defaultBounds (-2)
    (by norm_num [defaultBounds]) (by norm_num [defaultBounds])).1
      (by norm_num)).1

/-- Claim C10: `frange` terminates on every input — its loop is bounded by
the step counter, embedded here as structural recursion on the remaining
step budget — and yields at most `SIZE = 40` values; when `r_from ≥ r_to`
it yields nothing, so a grid built from inverted or collapsed bounds is
silently empty rather than an error or a diverging loop. -/
theorem C10_frange_bounded (a b : ℚ) :
    (frange a b).length ≤ SIZE ∧
    (b ≤ a → frange a b = []) ∧
    (∀ c d : ℚ, b ≤ a → compose ⟨a, b, c, d⟩ = []) := by
  refine ⟨frangeGo_length_le _ _ SIZE a, frange_inverted a b, ?_⟩
  intro c d h
  simp [compose, frange_inverted a b h]

theorem C10_frange_bounded_witness :
    ((1 : ℚ) ≤ 2) ∧ frange 2 1 = [] ∧ compose ⟨2, 1, 0, 1⟩ = [] :=
  ⟨by norm_num, (C10_frange_bounded 2 1).2.1 (by norm_num),
    (C10_frange_bounded 2 1).2.2 0 1 (by norm_num)⟩
